import Mathlib

/-!
Shallow embedding of the DataPak archive library (C++ sources under
`src/` of the morgabm/datapak repository) and proofs about it.

Modelling conventions:
* Byte buffers (`std::vector<std::byte>`, `std::string` payloads, file
  contents) are `List Nat`, each element a byte value.  File and archive
  paths are opaque byte lists, as the format treats names as opaque
  8-bit data.
* Machine integers are `Nat`; serialization writes them little-endian
  with explicit `% 256` digit extraction, matching the raw
  little-endian struct writes of the C++ code.
* `compression_method` is modelled as its byte tag (`none = 0`,
  `deflate = 1`, `zstd = 2`); the C++ enum is a `std::uint8_t` that can
  hold arbitrary byte values after a raw directory load, which the
  `Nat` model represents faithfully.
* Fallible operations return `Except` mirroring `std::expected`.
* The zlib backend (`deflate`/`inflate`) is an external collaborator of
  the repository (spec section 1 places the compressor backend out of
  scope); it is modelled as an abstract codec, see `zlib_backend`.
-/

deriving instance DecidableEq for Except

namespace dp

/-- Magic number identifying DataPak archive files, from
`include/datapak/format.hpp`: `constexpr std::uint32_t MAGIC_NUMBER = 0x50414B46`. -/
def MAGIC_NUMBER : Nat := 0x50414B46

/-- Current format version, from `include/datapak/format.hpp`. -/
def FORMAT_VERSION : Nat := 1

/-- Little-endian serialization of a value into `k` bytes (digit
extraction base 256, least significant byte first).  This is the byte
image the C++ code produces when it writes a `uint32_t`/`uint64_t`
field raw on a little-endian machine, as the format prescribes. -/
def leN : Nat → Nat → List Nat
  | 0, _ => []
  | k + 1, n => n % 256 :: leN k (n / 256)

/-- Little-endian value of a byte list (inverse direction of `leN`). -/
def valLE : List Nat → Nat
  | [] => 0
  | b :: bs => b + 256 * valLE bs

/-- Little-endian read of `n` bytes at position `pos` of a buffer;
out-of-range bytes read as 0 (the C++ destinations are zero-initialized
and the memory-mode loads bound-check before reading). -/
def rdLE (data : List Nat) (pos : Nat) : Nat → Nat
  | 0 => 0
  | n + 1 => data.getD pos 0 + 256 * rdLE data (pos + 1) n

/-- Association-list model of `std::unordered_map` insertion
(`m[k] = v`): replace the value when the key is present, append a new
binding otherwise. -/
def mapInsert {α : Type} : List (List Nat × α) → List Nat → α → List (List Nat × α)
  | [], k, v => [(k, v)]
  | (k', v') :: rest, k, v =>
      if k' = k then (k, v) :: rest else (k', v') :: mapInsert rest k v

/-- Association-list model of `std::unordered_map` lookup. -/
def mapLookup {α : Type} : List (List Nat × α) → List Nat → Option α
  | [], _ => none
  | (k', v') :: rest, k => if k' = k then some v' else mapLookup rest k

/-- Error codes of the compression engine,
from `include/datapak/compression.hpp`. -/
inductive compression_error where
  | invalid_method
  | compression_failed
  | decompression_failed
  | buffer_too_small
deriving DecidableEq, Repr

/-- Error codes of the archive reader, from `include/datapak/archive.hpp`. -/
inductive archive_error where
  | file_not_found
  | invalid_format
  | read_error
  | compression_error
  | entry_not_found
deriving DecidableEq, Repr

/-- Error codes of the archive builder,
from `include/datapak/archive_builder.hpp`. -/
inductive builder_error where
  | file_not_found
  | write_error
  | compression_error
  | invalid_path
deriving DecidableEq, Repr

/-- Error codes of the VFS, from `include/datapak/vfs.hpp`. -/
inductive vfs_error where
  | archive_error
  | file_not_found
  | cache_error
deriving DecidableEq, Repr

/-- Modelled from the spec: the zlib deflate/inflate backend used by
`compression_engine::deflate_compress` / `deflate_decompress`
(`src/compression.cpp`).  The spec (section 1) places the compressor
backend itself out of scope, "treated as a library providing
compress(bytes) -> bytes and decompress(bytes, expected_len) -> bytes";
section 4.1 adds that the deflate payload is a full self-describing
stream, and that `expected_len` is only a capacity hint.  `defl` returns
`none` when zlib reports an internal failure (the C++ error branches);
`infl` receives the expected length, which by the spec does not affect
the decoded output. -/
structure zlib_backend where
  defl : List Nat → Option (List Nat)
  infl : List Nat → Nat → Option (List Nat)

/-- Modelled from the spec: the zlib stream round-trip contract
(spec sections 4.1 and 8): inflating a stream produced by deflate
recovers the original bytes, with `expected_len` acting only as a hint. -/
def zlib_roundtrip (bk : zlib_backend) : Prop :=
  ∀ b c, bk.defl b = some c → ∀ n, bk.infl c n = some b

/-- Trivial backend (identity codec) used to instantiate theorems on
concrete inputs. -/
def idBackend : zlib_backend :=
  { defl := fun b => some b, infl := fun c _ => some c }

namespace compression_engine

/-- Embedding of `compression_engine::deflate_compress`
(`src/compression.cpp` lines 34-77): the chunked zlib deflate loop
concatenates the backend's output; zlib failure maps to
`compression_failed`. -/
def deflate_compress (bk : zlib_backend) (data : List Nat) :
    Except compression_error (List Nat) :=
  match bk.defl data with
  | some out => .ok out
  | none => .error .compression_failed

/-- Embedding of `compression_engine::deflate_decompress`
(`src/compression.cpp` lines 79-123): the chunked zlib inflate loop;
zlib failure maps to `decompression_failed`. -/
def deflate_decompress (bk : zlib_backend) (compressed_data : List Nat)
    (uncompressed_size : Nat) : Except compression_error (List Nat) :=
  match bk.infl compressed_data uncompressed_size with
  | some out => .ok out
  | none => .error .decompression_failed

/-- Embedding of `compression_engine::compress` (`src/compression.cpp`
lines 8-18): dispatch on the method byte; `none` (0) returns the data
unchanged, `deflate` (1) delegates, anything else is `invalid_method`. -/
def compress (bk : zlib_backend) (data : List Nat) (method : Nat) :
    Except compression_error (List Nat) :=
  if method = 0 then .ok data
  else if method = 1 then deflate_compress bk data
  else .error .invalid_method

/-- Embedding of `compression_engine::decompress` (`src/compression.cpp`
lines 20-32). -/
def decompress (bk : zlib_backend) (compressed_data : List Nat)
    (method : Nat) (uncompressed_size : Nat) :
    Except compression_error (List Nat) :=
  if method = 0 then .ok compressed_data
  else if method = 1 then deflate_decompress bk compressed_data uncompressed_size
  else .error .invalid_method

end compression_engine

/-- Archive file header, from `include/datapak/format.hpp`.  Fixed 24
bytes on disk, all fields little-endian. -/
structure archive_header where
  magic : Nat
  version : Nat
  directory_offset : Nat
  directory_count : Nat
  reserved : Nat
deriving DecidableEq, Repr

/-- Directory entry describing a file within the archive, from
`include/datapak/format.hpp`.  The `compression` field is the raw
method byte (the C++ `compression_method` is a `std::uint8_t` enum). -/
structure directory_entry where
  filename : List Nat
  data_offset : Nat
  compressed_size : Nat
  uncompressed_size : Nat
  compression : Nat
deriving DecidableEq, Repr

/-- Byte image of the 24-byte header as written (and rewritten at
offset 0) by `archive_builder::build`: the raw little-endian struct
write of `archive_header`. -/
def serialize_header (h : archive_header) : List Nat :=
  leN 4 h.magic ++ leN 4 h.version ++ leN 8 h.directory_offset ++
    leN 4 h.directory_count ++ leN 4 h.reserved

/-- Byte image of one directory entry as written by
`archive_builder::build` (`src/archive_builder.cpp` lines 128-141):
`filename_length` (u32), filename bytes, `data_offset` (u64),
`compressed_size` (u64), `uncompressed_size` (u64), method byte. -/
def serialize_entry (e : directory_entry) : List Nat :=
  leN 4 e.filename.length ++ e.filename ++ leN 8 e.data_offset ++
    leN 8 e.compressed_size ++ leN 8 e.uncompressed_size ++ leN 1 e.compression

/-- Represents a file to be added to an archive, from
`include/datapak/archive_builder.hpp`.  `compression` is the method
byte. -/
structure file_entry where
  source_path : List Nat
  archive_path : List Nat
  compression : Nat
deriving DecidableEq, Repr

/-- Builder state, from `include/datapak/archive_builder.hpp`:
the recorded file list and the default compression method byte. -/
structure archive_builder where
  files_ : List file_entry
  default_compression_ : Nat
deriving DecidableEq, Repr

namespace archive_builder

/-- Embedding of the `archive_builder` constructor
(`src/archive_builder.cpp` lines 9-10): empty file list, given default
method. -/
def new (default_compression : Nat) : archive_builder :=
  { files_ := [], default_compression_ := default_compression }

/-- Embedding of `archive_builder::file_count`
(`include/datapak/archive_builder.hpp`). -/
def file_count (b : archive_builder) : Nat := b.files_.length

/-- Embedding of `archive_builder::set_default_compression`
(`include/datapak/archive_builder.hpp`). -/
def set_default_compression (b : archive_builder) (compression : Nat) :
    archive_builder :=
  { b with default_compression_ := compression }

/-- Embedding of `archive_builder::add_file` (`src/archive_builder.cpp`
lines 12-20): a `none` (0) method argument is replaced by the builder's
current default before the entry is recorded. -/
def add_file (b : archive_builder) (source_path : List Nat)
    (archive_path : List Nat) (compression : Nat) : archive_builder :=
  let compression := if compression = 0 then b.default_compression_ else compression
  { b with files_ := b.files_ ++ [⟨source_path, archive_path, compression⟩] }

/-- Modelled from the spec: the view of the host filesystem that
`std::filesystem` gives `archive_builder::add_directory` — the
existence and directory-ness of the argument path, and the recursive
walk's regular files as (source path, path relative to the walk root)
pairs (spec section 4.2: "Adding a directory walks the directory
recursively, takes the path relative to the walk root, normalizes
separators to `/`, and appends one entry per regular file").
`std::filesystem` is external to the repository. -/
structure dir_listing where
  exists_ : Bool
  is_directory_ : Bool
  regular_files : List (List Nat × List Nat)
deriving DecidableEq, Repr

/-- Embedding of the archive-path computation inside
`archive_builder::add_directory` (`src/archive_builder.cpp` lines
36-43): join the archive prefix (adding `/` = byte 47 when the prefix
is nonempty and does not already end in it) with the relative path,
then replace backslashes (byte 92) by `/` over the whole result. -/
def dir_entry_path (archive_pfx : List Nat) (relative_path : List Nat) : List Nat :=
  ((if archive_pfx ≠ [] ∧ archive_pfx.getLast? ≠ some 47
    then archive_pfx ++ [47] else archive_pfx) ++ relative_path).map
    (fun c => if c = 92 then 47 else c)

/-- Embedding of `archive_builder::add_directory`
(`src/archive_builder.cpp` lines 22-48) over a `dir_listing` view of
the filesystem: return unchanged when the path does not exist or is not
a directory; substitute the default method for `none` (0); for each
regular file of the recursive walk, record it under its computed
archive path. -/
def add_directory (ls : dir_listing) (b : archive_builder)
    (archive_pfx : List Nat) (compression : Nat) : archive_builder :=
  if !ls.exists_ || !ls.is_directory_ then b
  else
    let compression := if compression = 0 then b.default_compression_ else compression
    ls.regular_files.foldl
      (fun bb sr => add_file bb sr.1 (dir_entry_path archive_pfx sr.2) compression)
      b

/-- Embedding of the "Compress if needed" step of
`archive_builder::build` (`src/archive_builder.cpp` lines 93-103):
when the recorded method is not `none` (0), compress and map a codec
failure to `compression_error`; otherwise use the raw bytes. -/
def compress_step (bk : zlib_backend) (data : List Nat) (method : Nat) :
    Except builder_error (List Nat) :=
  if method ≠ 0 then
    match compression_engine.compress bk data method with
    | .ok c => .ok c
    | .error _ => .error .compression_error
  else .ok data

/-- Embedding of the main loop of `archive_builder::build`
(`src/archive_builder.cpp` lines 74-121).  The host filesystem is a
function `fs` from a source path to its bytes (`none` when the source
cannot be opened and read, which aborts with `file_not_found`).
`current_offset` starts at `sizeof(header) = 24` and advances by each
compressed payload's length; the function returns the directory entries
and the concatenated data region. -/
def build_files (bk : zlib_backend) (fs : List Nat → Option (List Nat)) :
    List file_entry → Nat →
    Except builder_error (List directory_entry × List Nat)
  | [], _ => .ok ([], [])
  | f :: rest, current_offset =>
    match fs f.source_path with
    | none => .error .file_not_found
    | some data =>
      match compress_step bk data f.compression with
      | .error e => .error e
      | .ok compressed_data =>
        match build_files bk fs rest (current_offset + compressed_data.length) with
        | .error e => .error e
        | .ok (directory, bytes) =>
          .ok (⟨f.archive_path, current_offset, compressed_data.length,
                data.length, f.compression⟩ :: directory,
               compressed_data ++ bytes)

/-- Embedding of `archive_builder::build` (`src/archive_builder.cpp`
lines 50-151), split into its observable parts: the final header (the
placeholder header rewritten at offset 0 with the directory offset
recorded at `tellp` after the data region), the directory entries, and
the data region bytes. -/
def build_parts (bk : zlib_backend) (fs : List Nat → Option (List Nat))
    (b : archive_builder) :
    Except builder_error (archive_header × List directory_entry × List Nat) :=
  match build_files bk fs b.files_ 24 with
  | .error e => .error e
  | .ok (directory, data) =>
    .ok ({ magic := MAGIC_NUMBER, version := FORMAT_VERSION,
           directory_offset := 24 + data.length,
           directory_count := b.files_.length, reserved := 0 },
         directory, data)

/-- Embedding of `archive_builder::build`: the bytes of the produced
container — final header, data region, then the serialized directory
entries in order. -/
def build (bk : zlib_backend) (fs : List Nat → Option (List Nat))
    (b : archive_builder) : Except builder_error (List Nat) :=
  match build_parts bk fs b with
  | .error e => .error e
  | .ok (header, directory, data) =>
    .ok (serialize_header header ++ data ++ (directory.map serialize_entry).flatten)

end archive_builder

/-- State of a `std::ifstream` used by the disk-backed reader: the
underlying file bytes, the get position, and the fail state.  After a
failed read the stream's failbit is set; further `seekg`/`read` calls
are no-ops (`seekg` clears only the eofbit). -/
structure istream where
  data : List Nat
  pos : Nat
  failed : Bool
deriving DecidableEq, Repr

namespace istream

/-- Model of `istream::seekg(p)`: repositions the get pointer; a no-op
on a failed stream. -/
def seekg (s : istream) (p : Nat) : istream :=
  if s.failed then s else { s with pos := p }

/-- Model of `istream::read(buf, n)`: returns the bytes obtained and
the new stream state.  A read that cannot deliver all `n` bytes
delivers what is available and sets the fail state; a read on a failed
stream delivers nothing. -/
def read (s : istream) (n : Nat) : List Nat × istream :=
  if s.failed then ([], s)
  else if s.pos + n ≤ s.data.length then
    ((s.data.drop s.pos).take n, { s with pos := s.pos + n })
  else
    ((s.data.drop s.pos).take n,
     { s with pos := s.data.length, failed := true })

end istream

namespace archive

/-- Embedding of the directory-load loop of `archive::load_directory`
in memory mode (`src/archive.cpp` lines 64-126, `else` branches): for
each of the remaining `count` entries, bound-check and read the
`filename_length`, take the filename bytes only when
`0 < filename_length < 4096` (otherwise the filename stays empty),
advance over the declared length regardless, bound-check and read the
three u64 fields and the method byte, and insert the entry into the map
only when its filename is nonempty. -/
def load_mem_loop (data : List Nat) :
    Nat → Nat → List (List Nat × directory_entry) →
    Except archive_error (List (List Nat × directory_entry))
  | 0, _, directory => .ok directory
  | count + 1, current_pos, directory =>
    if current_pos + 4 > data.length then .error .read_error
    else
      let filename_length := rdLE data current_pos 4
      let pos1 := current_pos + 4
      if pos1 + filename_length > data.length then .error .read_error
      else
        let filename :=
          if 0 < filename_length ∧ filename_length < 4096
          then (data.drop pos1).take filename_length else []
        let pos2 := pos1 + filename_length
        if pos2 + 25 > data.length then .error .read_error
        else
          let entry : directory_entry :=
            { filename := filename,
              data_offset := rdLE data pos2 8,
              compressed_size := rdLE data (pos2 + 8) 8,
              uncompressed_size := rdLE data (pos2 + 16) 8,
              compression := rdLE data (pos2 + 24) 1 }
          let directory' :=
            if entry.filename ≠ [] then mapInsert directory entry.filename entry
            else directory
          load_mem_loop data count (pos2 + 25) directory'

/-- Embedding of `archive::load_directory` in memory mode
(`src/archive.cpp` lines 29-129): require at least a header's worth of
bytes (`invalid_format` otherwise), validate magic and version, then
run the entry loop from `directory_offset`. -/
def load_directory_mem (data : List Nat) :
    Except archive_error (List (List Nat × directory_entry)) :=
  if data.length < 24 then .error .invalid_format
  else
    let magic := rdLE data 0 4
    let version := rdLE data 4 4
    let directory_offset := rdLE data 8 8
    let directory_count := rdLE data 16 4
    if magic ≠ MAGIC_NUMBER then .error .invalid_format
    else if version ≠ FORMAT_VERSION then .error .invalid_format
    else load_mem_loop data directory_count directory_offset []

/-- Embedding of the directory-load loop of `archive::load_directory`
in disk mode (`src/archive.cpp` lines 64-126, `if` branches): each
iteration seeks to `current_pos`, reads the length, reads the filename
only when `0 < filename_length < 4096` (the C++ buffer is
NUL-initialized, so a short read leaves a zero-padded name), reads the
fixed fields immediately after whatever was read (the C++ destinations
are zero-initialized each iteration, so short reads parse as the bytes
obtained), and advances `current_pos` by the declared entry size.  No
read error is checked in this loop; it always produces a map. -/
def load_disk_loop :
    istream → Nat → Nat → List (List Nat × directory_entry) →
    List (List Nat × directory_entry)
  | _, 0, _, directory => directory
  | s, count + 1, current_pos, directory =>
    let s := s.seekg current_pos
    let r1 := s.read 4
    let filename_length := valLE r1.1
    let r2 :=
      if 0 < filename_length ∧ filename_length < 4096 then
        let rf := r1.2.read filename_length
        (rf.1 ++ List.replicate (filename_length - rf.1.length) 0, rf.2)
      else ([], r1.2)
    let r3 := r2.2.read 8
    let r4 := r3.2.read 8
    let r5 := r4.2.read 8
    let r6 := r5.2.read 1
    let entry : directory_entry :=
      { filename := r2.1,
        data_offset := valLE r3.1,
        compressed_size := valLE r4.1,
        uncompressed_size := valLE r5.1,
        compression := valLE r6.1 }
    let directory' :=
      if entry.filename ≠ [] then mapInsert directory entry.filename entry
      else directory
    load_disk_loop r6.2 count (current_pos + (4 + filename_length + 25)) directory'

/-- Embedding of `archive::load_directory` in disk mode
(`src/archive.cpp` lines 29-129, `if` branches): `none` models a file
that could not be opened (`file_not_found`); otherwise seek to 0, read
the 24 header bytes checking stream state and `gcount`
(`read_error` on failure), validate magic and version, and run the
entry loop from `directory_offset`. -/
def load_directory_disk (file : Option (List Nat)) :
    Except archive_error (List (List Nat × directory_entry)) :=
  match file with
  | none => .error .file_not_found
  | some data =>
    let s0 : istream := { data := data, pos := 0, failed := false }
    let r := (s0.seekg 0).read 24
    if r.2.failed ∨ r.1.length ≠ 24 then .error .read_error
    else
      let header := r.1
      let magic := valLE (header.take 4)
      let version := valLE ((header.drop 4).take 4)
      let directory_offset := valLE ((header.drop 8).take 8)
      let directory_count := valLE ((header.drop 16).take 4)
      if magic ≠ MAGIC_NUMBER then .error .invalid_format
      else if version ≠ FORMAT_VERSION then .error .invalid_format
      else .ok (load_disk_loop r.2 directory_count directory_offset [])

end archive

/-- Loaded state of a memory-backed reader (`archive` with
`access_mode::memory`): the parsed directory map and the owned byte
buffer.  The VFS-level claims are settled over memory-backed readers,
whose per-access behaviour is a pure function of this state. -/
structure archive where
  directory_ : List (List Nat × directory_entry)
  memory_data_ : List Nat
deriving DecidableEq, Repr

namespace archive

/-- Embedding of `archive::contains` (`src/archive.cpp` lines 158-160):
directory map membership. -/
def contains (a : archive) (filename : List Nat) : Bool :=
  (mapLookup a.directory_ filename).isSome

/-- Embedding of `archive::read_file_data` in memory mode
(`src/archive.cpp` lines 173-193): bounds check
`data_offset + compressed_size` against the buffer size
(`read_error` when out of bounds), then slice. -/
def read_file_data (a : archive) (entry : directory_entry) :
    Except archive_error (List Nat) :=
  if entry.data_offset + entry.compressed_size > a.memory_data_.length then
    .error .read_error
  else
    .ok ((a.memory_data_.drop entry.data_offset).take entry.compressed_size)

/-- Embedding of `archive::open` (`src/archive.cpp` lines 131-156),
returning the content of the produced `vfstream`: look up the entry
(`entry_not_found` when absent), read its data region, and when the
method byte is not `none` (0) decompress with the entry's method and
declared uncompressed size, mapping codec failure to
`compression_error`. -/
def open_entry (bk : zlib_backend) (a : archive) (filename : List Nat) :
    Except archive_error (List Nat) :=
  match mapLookup a.directory_ filename with
  | none => .error .entry_not_found
  | some entry =>
    match read_file_data a entry with
    | .error e => .error e
    | .ok data =>
      if entry.compression ≠ 0 then
        match compression_engine.decompress bk data entry.compression
                entry.uncompressed_size with
        | .error _ => .error .compression_error
        | .ok decompressed => .ok decompressed
      else .ok data

end archive

/-- Read-only seekable stream over an owned byte buffer, from
`src/vfstream.cpp`: the buffer and the get position. -/
structure vfstream where
  data_ : List Nat
  position_ : Nat
deriving DecidableEq, Repr

namespace vfstream

/-- Embedding of the `vfstream` constructor: wrap a buffer with the get
position at 0. -/
def mk0 (data : List Nat) : vfstream := { data_ := data, position_ := 0 }

/-- Model of `seekg(0, std::ios::end)` on a `vfstream`
(`vfstreambuf::seekoff`, end origin, offset 0): position moves to the
buffer size, always in range. -/
def seekg_end (s : vfstream) : vfstream := { s with position_ := s.data_.length }

/-- Model of `seekg(0, std::ios::beg)` on a `vfstream`: position 0. -/
def seekg_beg (s : vfstream) : vfstream := { s with position_ := 0 }

/-- Model of `tellg()` on a `vfstream`: the get position. -/
def tellg (s : vfstream) : Nat := s.position_

/-- Model of `read(buf, n)` on a `vfstream` (`vfstreambuf::xsgetn`):
deliver `min n available` bytes from the position and advance by that
amount. -/
def read (s : vfstream) (n : Nat) : List Nat × vfstream :=
  ((s.data_.drop s.position_).take n,
   { s with position_ := min (s.position_ + n) s.data_.length })

end vfstream

/-- Search order for file lookup across multiple archives, from
`include/datapak/vfs.hpp`. -/
inductive search_order where
  | mount_order
  | reverse_mount_order
deriving DecidableEq, Repr

/-- VFS state, from `include/datapak/vfs.hpp` (lines 122-127): the
mounted archives in mount order, the cache flag (default true), the
search order (default reverse), and the path-to-bytes cache. -/
structure vfs where
  archives_ : List archive
  cache_enabled_ : Bool := true
  search_order_ : search_order := .reverse_mount_order
  cache_ : List (List Nat × List Nat) := []
deriving DecidableEq, Repr

namespace vfs

/-- Embedding of `vfs::enable_cache` (`include/datapak/vfs.hpp` line
97): set the cache flag. -/
def enable_cache (v : vfs) (enable : Bool) : vfs :=
  { v with cache_enabled_ := enable }

/-- Embedding of `vfs::clear_cache` (`include/datapak/vfs.hpp` line
102). -/
def clear_cache (v : vfs) : vfs := { v with cache_ := [] }

/-- Embedding of `vfs::cache_size` (`include/datapak/vfs.hpp` line
108): number of cached paths. -/
def cache_size (v : vfs) : Nat := v.cache_.length

/-- Embedding of `vfs::set_search_order` (`include/datapak/vfs.hpp`
line 114). -/
def set_search_order (v : vfs) (order : search_order) : vfs :=
  { v with search_order_ := order }

/-- Embedding of `vfs::get_search_order` (`include/datapak/vfs.hpp`
line 120). -/
def get_search_order (v : vfs) : search_order := v.search_order_

/-- The archives in the direction the two `vfs::open`/`vfs::contains`
loops iterate (`src/vfs.cpp` lines 29-78 and 89-101):
`mount_order` iterates first to last, `reverse_mount_order` iterates
last to first. -/
def search_list (v : vfs) : List archive :=
  match v.search_order_ with
  | .mount_order => v.archives_
  | .reverse_mount_order => v.archives_.reverse

/-- Embedding of the archive-scanning loop body of `vfs::open`
(`src/vfs.cpp` lines 31-77): for each archive in iteration order, if it
`contains` the name, try its `open`; on success stop with the stream's
content; on failure, or when the archive does not contain the name,
continue with the remaining archives. -/
def open_scan (bk : zlib_backend) :
    List archive → List Nat → Option (List Nat)
  | [], _ => none
  | a :: rest, filename =>
    if a.contains filename then
      match archive.open_entry bk a filename with
      | .ok content => some content
      | .error _ => open_scan bk rest filename
    else open_scan bk rest filename

/-- Embedding of `vfs::open` (`src/vfs.cpp` lines 17-81), returning the
content of the produced stream together with the new VFS state.
On a cache hit (cache enabled and path present) the cached bytes are
returned and nothing changes.  Otherwise the archives are scanned in
the direction given by the search order; when one succeeds and the
cache is enabled, the stream is drained through `seekg`/`tellg`/`read`
into the cache and rewound before being returned; when no archive
yields the file the result is `file_not_found`. -/
def open_file (bk : zlib_backend) (v : vfs) (filename : List Nat) :
    Except vfs_error (List Nat) × vfs :=
  if v.cache_enabled_ && (mapLookup v.cache_ filename).isSome then
    (.ok ((mapLookup v.cache_ filename).getD []), v)
  else
    match open_scan bk (search_list v) filename with
    | some content =>
      if v.cache_enabled_ then
        let stream := vfstream.mk0 content
        let stream := stream.seekg_end
        let size := stream.tellg
        let stream := stream.seekg_beg
        let r := stream.read size
        let stream := r.2.seekg_beg
        (.ok stream.data_, { v with cache_ := mapInsert v.cache_ filename r.1 })
      else (.ok content, v)
    | none => (.error .file_not_found, v)

/-- Embedding of `vfs::contains` (`src/vfs.cpp` lines 83-104): true on
a cache hit with the cache enabled, otherwise true when some archive in
iteration order contains the name. -/
def contains (v : vfs) (filename : List Nat) : Bool :=
  (v.cache_enabled_ && (mapLookup v.cache_ filename).isSome) ||
    (search_list v).any (fun a => a.contains filename)

end vfs

/-- Effect of one well-framed directory entry on the directory map
being built: inserted exactly when its declared filename length is
strictly between 0 and 4096, skipped otherwise. -/
def load_step (d : List (List Nat × directory_entry)) (e : directory_entry) :
    List (List Nat × directory_entry) :=
  if 0 < e.filename.length ∧ e.filename.length < 4096
  then mapInsert d e.filename e else d

/-- Expected directory map after loading a well-framed directory
region: entries are processed in order, and exactly those whose
declared filename length is strictly between 0 and 4096 are inserted
(last wins on duplicate names). -/
def expected_directory (entries : List directory_entry) :
    List (List Nat × directory_entry) :=
  entries.foldl load_step []

/-- Field bounds under which a directory entry serializes and parses
back exactly: each field fits its wire width. -/
def good_fields (e : directory_entry) : Prop :=
  e.filename.length < 2 ^ 32 ∧ e.data_offset < 2 ^ 64 ∧
    e.compressed_size < 2 ^ 64 ∧ e.uncompressed_size < 2 ^ 64 ∧
    e.compression < 256

instance (e : directory_entry) : Decidable (good_fields e) := by
  unfold good_fields
  infer_instance

/-! ### Helper lemmas about the byte-level primitives -/

theorem leN_length (k n : Nat) : (leN k n).length = k := by
  induction k generalizing n with
  | zero => rfl
  | succ k ih => simp [leN, ih]

theorem valLE_leN (k n : Nat) (h : n < 256 ^ k) : valLE (leN k n) = n := by
  induction k generalizing n with
  | zero => simp at h; simp [leN, valLE, h]
  | succ k ih =>
    have hd : n / 256 < 256 ^ k := by
      rw [Nat.div_lt_iff_lt_mul (by norm_num)]
      calc n < 256 ^ (k + 1) := h
        _ = 256 ^ k * 256 := by ring
    rw [leN, valLE, ih (n / 256) hd]
    omega

theorem valLE_append (a b : List Nat) :
    valLE (a ++ b) = valLE a + 256 ^ a.length * valLE b := by
  induction a with
  | nil => simp [valLE]
  | cons x xs ih => simp [valLE, ih]; ring

theorem rdLE_eq_valLE_take (data : List Nat) (pos n : Nat) :
    rdLE data pos n = valLE ((data.drop pos).take n) := by
  induction n generalizing pos with
  | zero => simp [rdLE, valLE]
  | succ n ih =>
    rw [rdLE, ih]
    by_cases hlt : pos < data.length
    · rw [List.drop_eq_getElem_cons hlt, List.take_succ_cons, valLE,
        List.getD_eq_getElem data 0 hlt]
    · have hge : data.length ≤ pos := le_of_not_lt hlt
      rw [List.getD_eq_default data 0 hge,
        List.drop_eq_nil_of_le hge,
        List.drop_eq_nil_of_le (le_trans hge (Nat.le_succ_of_le le_rfl))]
      simp [valLE]

theorem take_at_chunk (pre a b : List Nat) (k : Nat) (ha : a.length = k) :
    (((pre ++ (a ++ b)).drop pre.length).take k) = a := by
  subst ha
  rw [List.drop_left, List.take_append_of_le_length le_rfl]
  exact List.take_length a

theorem rdLE_at_chunk (pre a b : List Nat) (k : Nat) (ha : a.length = k) :
    rdLE (pre ++ (a ++ b)) pre.length k = valLE a := by
  rw [rdLE_eq_valLE_take, take_at_chunk pre a b k ha]

theorem take_serialize_header (hh : archive_header) (t : List Nat) :
    (serialize_header hh ++ t).take 4 = leN 4 hh.magic := by
  have hlen : (leN 4 hh.magic).length = 4 := leN_length 4 _
  rw [serialize_header, List.append_assoc, List.append_assoc, List.append_assoc,
    List.append_assoc, List.take_append_of_le_length (le_of_eq hlen.symm)]
  rw [← hlen]
  exact List.take_length _

/-! ### Helper lemmas about the association-list map -/

theorem mapLookup_insert_self {α : Type} (m : List (List Nat × α))
    (k : List Nat) (v : α) : mapLookup (mapInsert m k v) k = some v := by
  induction m with
  | nil => simp [mapInsert, mapLookup]
  | cons p rest ih =>
    obtain ⟨k', v'⟩ := p
    by_cases h : k' = k
    · simp [mapInsert, mapLookup, h]
    · simp [mapInsert, mapLookup, h, ih]

theorem mapLookup_insert_ne {α : Type} (m : List (List Nat × α))
    (k q : List Nat) (v : α) (h : q ≠ k) :
    mapLookup (mapInsert m k v) q = mapLookup m q := by
  induction m with
  | nil =>
    simp only [mapInsert, mapLookup]
    rw [if_neg (fun hkq => h hkq.symm)]
  | cons p rest ih =>
    obtain ⟨k', v'⟩ := p
    by_cases hk : k' = k
    · subst hk
      simp only [mapInsert, if_pos rfl, mapLookup]
      rw [if_neg (fun hkq : k' = q => h hkq.symm), if_neg (fun hkq : k' = q => h hkq.symm)]
    · by_cases hq : k' = q
      · subst hq
        simp [mapInsert, if_neg hk, mapLookup]
      · simp only [mapInsert, if_neg hk, mapLookup, if_neg hq, ih]

theorem mapInsert_length_of_not_mem {α : Type} (m : List (List Nat × α))
    (k : List Nat) (v : α) (h : mapLookup m k = none) :
    (mapInsert m k v).length = m.length + 1 := by
  induction m with
  | nil => simp [mapInsert]
  | cons p rest ih =>
    obtain ⟨k', v'⟩ := p
    by_cases hk : k' = k
    · simp [mapLookup, hk] at h
    · simp [mapLookup, hk] at h
      simp [mapInsert, hk, ih h]

/-! ### Claim C2: codec round trip -/

theorem idBackend_roundtrip : zlib_roundtrip idBackend := by
  intro b c h n
  simp [idBackend] at h ⊢
  exact h.symm

/-- C2: for every byte sequence `b` and every supported compression
method `m` (`None` = 0 and `Deflate` = 1),
`decompress(compress(b, m), m, |b|)` returns exactly `b`.  The zlib
backend is abstract (it is an external collaborator of the repository)
and is assumed to satisfy its documented stream round-trip contract;
the engine's dispatch, copying for `None`, and error mapping are
embedded from `src/compression.cpp`. -/
theorem C2_codec_roundtrip (bk : zlib_backend) (hrt : zlib_roundtrip bk)
    (b : List Nat) (m : Nat) (hm : m = 0 ∨ m = 1) (c : List Nat)
    (hc : compression_engine.compress bk b m = .ok c) :
    compression_engine.decompress bk c m b.length = .ok b := by
  rcases hm with rfl | rfl
  · simp [compression_engine.compress] at hc
    simp [compression_engine.decompress, hc]
  · simp only [compression_engine.compress, if_neg (by norm_num : (1 : Nat) ≠ 0),
      if_pos rfl, compression_engine.deflate_compress] at hc
    cases hd : bk.defl b with
    | none => rw [hd] at hc; simp at hc
    | some out =>
      rw [hd] at hc
      simp at hc
      subst hc
      simp [compression_engine.decompress, compression_engine.deflate_decompress,
        hrt b out hd b.length]

/-- Witness for C2 at a concrete input: deflate round trip of
`[1, 2, 3]` through the identity backend. -/
theorem C2_codec_roundtrip_witness :
    compression_engine.decompress idBackend [1, 2, 3] 1 3 = .ok [1, 2, 3] :=
  C2_codec_roundtrip idBackend idBackend_roundtrip [1, 2, 3] 1 (Or.inr rfl)
    [1, 2, 3] (by decide)

/-! ### Claim C4: magic bytes at the start of a container -/

/-- C4 counterexample: the claim states the first four bytes of a
produced container are `0x50 0x41 0x4B 0x46`.  Building an archive
from an empty builder produces a container whose first four bytes are
`0x46 0x4B 0x41 0x50` (= 70, 75, 65, 80): the little-endian encoding
of the u32 magic `0x50414B46`, i.e. the claimed sequence reversed. -/
theorem C4_magic_counterexample :
    (archive_builder.build idBackend (fun _ => none)
        (archive_builder.new 1)).map (List.take 4) = .ok [70, 75, 65, 80] ∧
    ([70, 75, 65, 80] : List Nat) ≠ [0x50, 0x41, 0x4B, 0x46] := by
  constructor
  · decide
  · decide

/-- C4 (amended): every container produced by `archive_builder::build`
begins with the four bytes `0x46 0x4B 0x41 0x50` at offsets 0 through
3 — the little-endian encoding of the u32 magic `0x50414B46`. -/
theorem C4_magic_little_endian (bk : zlib_backend)
    (fs : List Nat → Option (List Nat)) (b : archive_builder)
    (out : List Nat) (h : archive_builder.build bk fs b = .ok out) :
    out.take 4 = [0x46, 0x4B, 0x41, 0x50] := by
  unfold archive_builder.build archive_builder.build_parts at h
  cases hb : archive_builder.build_files bk fs b.files_ 24 with
  | error e => rw [hb] at h; simp at h
  | ok pr =>
    rw [hb] at h
    obtain ⟨dir, data⟩ := pr
    simp at h
    subst h
    rw [take_serialize_header]
    show leN 4 MAGIC_NUMBER = [70, 75, 65, 80]
    rfl

/-- Witness for C4 (amended) at a concrete input: the empty build. -/
theorem C4_magic_little_endian_witness :
    List.take 4 [70, 75, 65, 80, 1, 0, 0, 0, 24, 0, 0, 0, 0, 0, 0, 0,
      0, 0, 0, 0, 0, 0, 0, 0] = [0x46, 0x4B, 0x41, 0x50] :=
  C4_magic_little_endian idBackend (fun _ => none) (archive_builder.new 1)
    [70, 75, 65, 80, 1, 0, 0, 0, 24, 0, 0, 0, 0, 0, 0, 0,
      0, 0, 0, 0, 0, 0, 0, 0] (by decide)

/-! ### Claim C6: offset invariants of a built container -/

theorem build_files_entry_bounds (bk : zlib_backend)
    (fs : List Nat → Option (List Nat)) :
    ∀ (files : List file_entry) (off : Nat) (dir : List directory_entry)
      (data : List Nat),
      archive_builder.build_files bk fs files off = .ok (dir, data) →
      ∀ e ∈ dir, off ≤ e.data_offset ∧
        e.data_offset + e.compressed_size ≤ off + data.length := by
  intro files
  induction files with
  | nil =>
    intro off dir data h
    simp [archive_builder.build_files] at h
    obtain ⟨rfl, rfl⟩ := h
    intro e he
    simp at he
  | cons f rest ih =>
    intro off dir data h
    unfold archive_builder.build_files at h
    cases hfs : fs f.source_path with
    | none => rw [hfs] at h; simp at h
    | some d0 =>
      rw [hfs] at h
      simp only [] at h
      cases hcs : archive_builder.compress_step bk d0 f.compression with
      | error er => rw [hcs] at h; simp at h
      | ok cd =>
        rw [hcs] at h
        simp only [] at h
        cases hrec : archive_builder.build_files bk fs rest (off + cd.length) with
        | error er => rw [hrec] at h; simp at h
        | ok pr =>
          rw [hrec] at h
          obtain ⟨dir', bytes'⟩ := pr
          simp at h
          obtain ⟨rfl, rfl⟩ := h
          intro e he
          rcases List.mem_cons.mp he with he1 | he1
          · subst he1
            exact ⟨le_rfl, by simp only [List.length_append]; omega⟩
          · have hb := ih (off + cd.length) dir' bytes' hrec e he1
            simp only [List.length_append]
            omega

/-- C6: for every container produced by `archive_builder::build` from
sources that all read (and compress) successfully, the header's
`directory_offset` is at least 24, and every directory entry satisfies
`data_offset + compressed_size ≤ directory_offset`. -/
theorem C6_offsets_invariant (bk : zlib_backend)
    (fs : List Nat → Option (List Nat)) (b : archive_builder)
    (hdr : archive_header) (dir : List directory_entry) (data : List Nat)
    (hb : archive_builder.build_parts bk fs b = .ok (hdr, dir, data)) :
    24 ≤ hdr.directory_offset ∧
      ∀ e ∈ dir, e.data_offset + e.compressed_size ≤ hdr.directory_offset := by
  unfold archive_builder.build_parts at hb
  cases hf : archive_builder.build_files bk fs b.files_ 24 with
  | error er => rw [hf] at hb; simp at hb
  | ok pr =>
    rw [hf] at hb
    obtain ⟨dir0, data0⟩ := pr
    simp at hb
    obtain ⟨rfl, rfl, rfl⟩ := hb
    constructor
    · simp
    · intro e he
      have := build_files_entry_bounds bk fs b.files_ 24 dir0 data0 hf e he
      simpa using this.2

/-- Witness for C6 at a concrete input: a one-file build with raw
storage. -/
theorem C6_offsets_invariant_witness :
    24 ≤ (27 : Nat) ∧
      ∀ e ∈ [directory_entry.mk [104, 105] 24 3 3 0],
        e.data_offset + e.compressed_size ≤ 27 :=
  C6_offsets_invariant idBackend
    (fun p => if p = [1] then some [5, 6, 7] else none)
    { files_ := [⟨[1], [104, 105], 0⟩], default_compression_ := 0 }
    { magic := MAGIC_NUMBER, version := FORMAT_VERSION,
      directory_offset := 27, directory_count := 1, reserved := 0 }
    [directory_entry.mk [104, 105] 24 3 3 0] [5, 6, 7] (by decide)

/-! ### Claim C8: the None sentinel and the builder default -/

/-- C8 counterexample: the claim states uncompressed entries can only
be obtained by constructing the builder with default method `None`.
A builder constructed with default `Deflate` (1), after
`set_default_compression(None)`, records an uncompressed entry for
`add_file(.., None)`. -/
theorem C8_sentinel_counterexample :
    (archive_builder.new 1).default_compression_ = 1 ∧
    (((archive_builder.new 1).set_default_compression 0).add_file
        [1] [2] 0).files_.map file_entry.compression = [0] := by
  constructor
  · rfl
  · decide

theorem mem_add_directory_fold (c : Nat) (pfx : List Nat) :
    ∀ (frs : List (List Nat × List Nat)) (bb : archive_builder)
      (e : file_entry),
      e ∈ (frs.foldl
        (fun bb sr =>
          archive_builder.add_file bb sr.1
            (archive_builder.dir_entry_path pfx sr.2) c) bb).files_ →
      e ∈ bb.files_ ∨
        e.compression = if c = 0 then bb.default_compression_ else c := by
  intro frs
  induction frs with
  | nil => intro bb e he; exact Or.inl he
  | cons fr rest ih =>
    intro bb e he
    simp only [List.foldl_cons] at he
    rcases ih _ e he with hin | hc
    · simp only [archive_builder.add_file, List.mem_append, List.mem_singleton] at hin
      rcases hin with hin | rfl
      · exact Or.inl hin
      · right
        by_cases h0 : c = 0 <;> simp [h0]
    · right
      simpa [archive_builder.add_file] using hc

/-- C8 (amended): a call to `add_file` or `add_directory` with the
method argument `None` (0) records the entry (or each walked entry)
with the builder's current default compression method rather than
`None`; a caller obtains uncompressed entries exactly when the
builder's default method is `None` at the time of the call — whether
set at construction or later via `set_default_compression`. -/
theorem C8_sentinel_default (b : archive_builder) (src path : List Nat)
    (ls : archive_builder.dir_listing) (pfx : List Nat) :
    (archive_builder.add_file b src path 0).files_ =
      b.files_ ++ [⟨src, path, b.default_compression_⟩] ∧
    (∀ e ∈ (archive_builder.add_directory ls b pfx 0).files_,
        e ∈ b.files_ ∨ e.compression = b.default_compression_) ∧
    ((archive_builder.add_file b src path 0).files_.getLast?.map
        file_entry.compression = some 0 ↔ b.default_compression_ = 0) := by
  refine ⟨by simp [archive_builder.add_file], ?_, ?_⟩
  · intro e he
    unfold archive_builder.add_directory at he
    by_cases hcond : (!ls.exists_ || !ls.is_directory_) = true
    · rw [if_pos hcond] at he
      exact Or.inl he
    · rw [if_neg hcond] at he
      simp only [if_pos rfl] at he
      have := mem_add_directory_fold b.default_compression_ pfx
        ls.regular_files b e he
      rcases this with hin | hc
      · exact Or.inl hin
      · right
        by_cases h0 : b.default_compression_ = 0 <;> simp [h0] at hc <;> simp [hc, h0]
    -- fallthrough handled above
  · simp [archive_builder.add_file]

/-- Witness for C8 (amended) at a concrete input: a builder with
default `Deflate` and a one-file directory walk. -/
theorem C8_sentinel_default_witness :
    (archive_builder.add_file (archive_builder.new 1) [3] [4] 0).files_ =
      (archive_builder.new 1).files_ ++
        [⟨[3], [4], (archive_builder.new 1).default_compression_⟩] ∧
    ((archive_builder.add_file (archive_builder.new 1) [3] [4] 0).files_.getLast?.map
        file_entry.compression = some 0 ↔
      (archive_builder.new 1).default_compression_ = 0) := by
  have h := C8_sentinel_default (archive_builder.new 1) [3] [4]
    { exists_ := true, is_directory_ := true, regular_files := [([5], [6])] } []
  exact ⟨h.1, h.2.2⟩

/-! ### Claim C9: add_directory on a missing or non-directory path -/

/-- C9: for every builder state and every path that does not exist or
is not a directory, `archive_builder::add_directory` returns without
reporting an error (its return type has no error channel) and leaves
the recorded file list — and hence `file_count()` — unchanged. -/
theorem C9_add_directory_missing_noop (ls : archive_builder.dir_listing)
    (b : archive_builder) (pfx : List Nat) (m : Nat)
    (h : ls.exists_ = false ∨ ls.is_directory_ = false) :
    archive_builder.add_directory ls b pfx m = b ∧
    (archive_builder.add_directory ls b pfx m).file_count = b.file_count := by
  have hcond : (!ls.exists_ || !ls.is_directory_) = true := by
    rcases h with h | h <;> simp [h]
  constructor
  · unfold archive_builder.add_directory
    rw [if_pos hcond]
  · unfold archive_builder.add_directory
    rw [if_pos hcond]

/-- Witness for C9 at a concrete input: a nonexistent path. -/
theorem C9_add_directory_missing_noop_witness :
    archive_builder.add_directory
      { exists_ := false, is_directory_ := true, regular_files := [([1], [2])] }
      (archive_builder.new 1) [] 0 = archive_builder.new 1 ∧
    (archive_builder.add_directory
      { exists_ := false, is_directory_ := true, regular_files := [([1], [2])] }
      (archive_builder.new 1) [] 0).file_count = (archive_builder.new 1).file_count :=
  C9_add_directory_missing_noop _ _ _ _ (Or.inl rfl)

/-! ### Branch lemmas for vfs::open -/

theorem open_file_cache_hit (bk : zlib_backend) (v : vfs) (p bs : List Nat)
    (hce : v.cache_enabled_ = true) (hhit : mapLookup v.cache_ p = some bs) :
    vfs.open_file bk v p = (.ok bs, v) := by
  unfold vfs.open_file
  rw [if_pos (by simp [hce, hhit])]
  simp [hhit]

theorem open_file_scan_some (bk : zlib_backend) (v : vfs) (p content : List Nat)
    (hmiss : (v.cache_enabled_ && (mapLookup v.cache_ p).isSome) = false)
    (hscan : vfs.open_scan bk (vfs.search_list v) p = some content) :
    vfs.open_file bk v p =
      (.ok content,
       if v.cache_enabled_ then { v with cache_ := mapInsert v.cache_ p content }
       else v) := by
  unfold vfs.open_file
  rw [if_neg (by simp [hmiss]), hscan]
  simp only []
  cases hce : v.cache_enabled_
  · simp
  · simp [vfstream.mk0, vfstream.seekg_end, vfstream.tellg, vfstream.seekg_beg,
      vfstream.read]

theorem open_file_scan_none (bk : zlib_backend) (v : vfs) (p : List Nat)
    (hmiss : (v.cache_enabled_ && (mapLookup v.cache_ p).isSome) = false)
    (hscan : vfs.open_scan bk (vfs.search_list v) p = none) :
    vfs.open_file bk v p = (.error .file_not_found, v) := by
  unfold vfs.open_file
  rw [if_neg (by simp [hmiss]), hscan]

theorem open_scan_cons_fail (bk : zlib_backend) (a : archive)
    (rest : List archive) (p : List Nat) (er : archive_error)
    (hc : a.contains p = true) (he : archive.open_entry bk a p = .error er) :
    vfs.open_scan bk (a :: rest) p = vfs.open_scan bk rest p := by
  simp only [vfs.open_scan]
  rw [if_pos hc, he]

theorem open_scan_cons_ok (bk : zlib_backend) (a : archive)
    (rest : List archive) (p b : List Nat)
    (hc : a.contains p = true) (ho : archive.open_entry bk a p = .ok b) :
    vfs.open_scan bk (a :: rest) p = some b := by
  simp only [vfs.open_scan]
  rw [if_pos hc, ho]

/-! ### Claim C1: overlay precedence -/

/-- C1: for a VFS with archives `A1` (mounted first) and `A2` (mounted
second) that both contain entry `p`, with the cache empty or disabled:
under `ReverseMountOrder`, `open(p)` yields `A2`'s bytes of `p`; under
`MountOrder` it yields `A1`'s bytes. -/
theorem C1_overlay_precedence (bk : zlib_backend) (A1 A2 : archive)
    (p b1 b2 : List Nat) (ce : Bool) (cc : List (List Nat × List Nat))
    (hcache : ce = false ∨ cc = [])
    (h1 : A1.contains p = true) (h2 : A2.contains p = true)
    (ho1 : archive.open_entry bk A1 p = .ok b1)
    (ho2 : archive.open_entry bk A2 p = .ok b2) :
    (vfs.open_file bk ⟨[A1, A2], ce, .reverse_mount_order, cc⟩ p).1 = .ok b2 ∧
    (vfs.open_file bk ⟨[A1, A2], ce, .mount_order, cc⟩ p).1 = .ok b1 := by
  have hmiss : (ce && (mapLookup cc p).isSome) = false := by
    rcases hcache with rfl | rfl <;> simp [mapLookup]
  constructor
  · rw [open_file_scan_some bk _ p b2 hmiss
      (by simp [vfs.search_list, vfs.open_scan, h2, ho2])]
  · rw [open_file_scan_some bk _ p b1 hmiss
      (by simp [vfs.search_list, vfs.open_scan, h1, ho1])]

/-- Witness for C1 at concrete archives holding different bytes for
the same path. -/
theorem C1_overlay_precedence_witness :
    (vfs.open_file idBackend
      ⟨[⟨[([112], ⟨[112], 0, 1, 1, 0⟩)], [1]⟩,
        ⟨[([112], ⟨[112], 0, 1, 1, 0⟩)], [2]⟩], false,
        .reverse_mount_order, []⟩ [112]).1 = .ok [2] ∧
    (vfs.open_file idBackend
      ⟨[⟨[([112], ⟨[112], 0, 1, 1, 0⟩)], [1]⟩,
        ⟨[([112], ⟨[112], 0, 1, 1, 0⟩)], [2]⟩], false,
        .mount_order, []⟩ [112]).1 = .ok [1] :=
  C1_overlay_precedence idBackend
    ⟨[([112], ⟨[112], 0, 1, 1, 0⟩)], [1]⟩
    ⟨[([112], ⟨[112], 0, 1, 1, 0⟩)], [2]⟩
    [112] [1] [2] false [] (Or.inl rfl) (by decide) (by decide)
    (by decide) (by decide)

/-! ### Claim C3: behaviour when the selected reader fails -/

/-- C3 counterexample: the claim states that when the
highest-precedence reader containing `p` fails its open, the VFS
returns an error without consulting lower-precedence readers.  Here
the most recently mounted archive contains `p` = `[112]` but its entry
is out of bounds (`open` fails with `read_error`), and the VFS opens
`p` from the archive mounted first instead, returning its bytes
`[9, 9, 9]` rather than an error. -/
theorem C3_no_fallthrough_counterexample :
    archive.contains ⟨[([112], ⟨[112], 100, 50, 0, 0⟩)], []⟩ [112] = true ∧
    archive.open_entry idBackend
      ⟨[([112], ⟨[112], 100, 50, 0, 0⟩)], []⟩ [112] = .error .read_error ∧
    (vfs.open_file idBackend
      { archives_ := [⟨[([112], ⟨[112], 0, 3, 3, 0⟩)], [9, 9, 9]⟩,
                      ⟨[([112], ⟨[112], 100, 50, 0, 0⟩)], []⟩],
        cache_enabled_ := false, search_order_ := .reverse_mount_order,
        cache_ := [] } [112]).1 = .ok [9, 9, 9] := by
  refine ⟨by decide, by decide, by decide⟩

theorem open_scan_skip_front (bk : zlib_backend) :
    ∀ (front rest : List archive) (p : List Nat),
      (∀ a' ∈ front, a'.contains p = false) →
      vfs.open_scan bk (front ++ rest) p = vfs.open_scan bk rest p := by
  intro front
  induction front with
  | nil => intro rest p h; rfl
  | cons a fr ih =>
    intro rest p h
    have ha := h a (List.mem_cons_self a fr)
    simp only [List.cons_append, vfs.open_scan]
    rw [if_neg (by simp [ha])]
    exact ih rest p (fun a' ha' => h a' (List.mem_cons_of_mem _ ha'))

/-- C3 (amended): for every VFS and under the active `search_order`,
when the highest-precedence reader whose directory contains `p` (all
readers before it in iteration order do not contain `p`) fails its
`open(p)`, the VFS falls through and the result is that of scanning
the remaining lower-precedence readers, however many there are: the
first of them that contains `p` and opens it successfully provides the
bytes, and `file_not_found` is returned only when none does. -/
theorem C3_fallthrough (bk : zlib_backend) (v : vfs) (p : List Nat)
    (front rest : List archive) (a : archive) (er : archive_error)
    (hcache : v.cache_enabled_ = false ∨ v.cache_ = [])
    (hlist : vfs.search_list v = front ++ a :: rest)
    (hfront : ∀ a' ∈ front, a'.contains p = false)
    (hc : a.contains p = true)
    (he : archive.open_entry bk a p = .error er) :
    (vfs.open_file bk v p).1 =
      (match vfs.open_scan bk rest p with
       | some b => .ok b
       | none => .error .file_not_found) := by
  have hmiss : (v.cache_enabled_ && (mapLookup v.cache_ p).isSome) = false := by
    rcases hcache with h | h <;> simp [h, mapLookup]
  have hscan : vfs.open_scan bk (vfs.search_list v) p =
      vfs.open_scan bk rest p := by
    rw [hlist, open_scan_skip_front bk front _ p hfront,
      open_scan_cons_fail bk a rest p er hc he]
  cases hs : vfs.open_scan bk rest p with
  | some b => rw [open_file_scan_some bk v p b hmiss (hscan.trans hs)]
  | none => rw [open_file_scan_none bk v p hmiss (hscan.trans hs)]

/-- Witness for C3 (amended) at a concrete three-archive VFS under
`MountOrder`: the first archive does not contain the path, the second
contains it but fails with `read_error`, and the VFS serves the bytes
of the third. -/
theorem C3_fallthrough_witness :
    (vfs.open_file idBackend
      ⟨[⟨[], []⟩,
        ⟨[([113], ⟨[113], 100, 50, 0, 0⟩)], []⟩,
        ⟨[([113], ⟨[113], 0, 2, 2, 0⟩)], [4, 5]⟩], false,
        .mount_order, []⟩ [113]).1 = .ok [4, 5] :=
  (C3_fallthrough idBackend
    ⟨[⟨[], []⟩,
      ⟨[([113], ⟨[113], 100, 50, 0, 0⟩)], []⟩,
      ⟨[([113], ⟨[113], 0, 2, 2, 0⟩)], [4, 5]⟩], false,
      .mount_order, []⟩ [113]
    [⟨[], []⟩] [⟨[([113], ⟨[113], 0, 2, 2, 0⟩)], [4, 5]⟩]
    ⟨[([113], ⟨[113], 100, 50, 0, 0⟩)], []⟩ .read_error
    (Or.inl rfl) rfl (by decide) (by decide) (by decide)).trans (by decide)

/-! ### Claim C7: cache population and consistency -/

/-- C7: with caching enabled and `p` not yet cached, a successful
`open(p)` returns the scanned bytes, strictly increases `cache_size()`,
and a second `open(p)` returns the same bytes from the cache without
touching the state and without consulting any reader (the archive list
is irrelevant to it); moreover, if every existing cache entry equals
what a fresh open with an empty cache would produce, the same holds for
every cache entry after the open. -/
theorem C7_cache_consistency (bk : zlib_backend) (v : vfs) (p b : List Nat)
    (hce : v.cache_enabled_ = true)
    (hmiss : mapLookup v.cache_ p = none)
    (hscan : vfs.open_scan bk (vfs.search_list v) p = some b)
    (hgood : ∀ q bs, mapLookup v.cache_ q = some bs →
      (vfs.open_file bk (vfs.clear_cache v) q).1 = .ok bs) :
    (vfs.open_file bk v p).1 = .ok b ∧
    (vfs.open_file bk v p).2.cache_size = v.cache_size + 1 ∧
    vfs.open_file bk (vfs.open_file bk v p).2 p =
      (.ok b, (vfs.open_file bk v p).2) ∧
    (∀ as', (vfs.open_file bk
      { (vfs.open_file bk v p).2 with archives_ := as' } p).1 = .ok b) ∧
    (∀ q bs, mapLookup (vfs.open_file bk v p).2.cache_ q = some bs →
      (vfs.open_file bk (vfs.clear_cache v) q).1 = .ok bs) := by
  have hmb : (v.cache_enabled_ && (mapLookup v.cache_ p).isSome) = false := by
    simp [hmiss]
  have hopen := open_file_scan_some bk v p b hmb hscan
  rw [hce] at hopen
  simp only [if_true] at hopen
  refine ⟨by rw [hopen], ?_, ?_, ?_, ?_⟩
  · rw [hopen]
    simp [vfs.cache_size, mapInsert_length_of_not_mem _ _ _ hmiss]
  · rw [hopen]
    exact open_file_cache_hit bk _ p b rfl (mapLookup_insert_self _ _ _)
  · intro as'
    rw [hopen]
    rw [open_file_cache_hit bk _ p b rfl (mapLookup_insert_self _ _ _)]
  · intro q bs hq
    rw [hopen] at hq
    simp only [] at hq
    by_cases hqp : q = p
    · subst hqp
      rw [mapLookup_insert_self] at hq
      obtain rfl : b = bs := by injection hq
      have hmiss0 : ((vfs.clear_cache v).cache_enabled_ &&
          (mapLookup (vfs.clear_cache v).cache_ q).isSome) = false := by
        simp [vfs.clear_cache, mapLookup]
      rw [open_file_scan_some bk _ q b hmiss0 hscan]
    · rw [mapLookup_insert_ne _ _ _ _ hqp] at hq
      exact hgood q bs hq

/-- Witness for C7 at a concrete one-archive VFS with an empty cache. -/
theorem C7_cache_consistency_witness :
    (vfs.open_file idBackend
      ⟨[⟨[([112], ⟨[112], 0, 3, 3, 0⟩)], [9, 8, 7]⟩], true,
        .reverse_mount_order, []⟩ [112]).1 = .ok [9, 8, 7] ∧
    (vfs.open_file idBackend
      ⟨[⟨[([112], ⟨[112], 0, 3, 3, 0⟩)], [9, 8, 7]⟩], true,
        .reverse_mount_order, []⟩ [112]).2.cache_size =
      vfs.cache_size ⟨[⟨[([112], ⟨[112], 0, 3, 3, 0⟩)], [9, 8, 7]⟩], true,
        .reverse_mount_order, []⟩ + 1 := by
  have h := C7_cache_consistency idBackend
    ⟨[⟨[([112], ⟨[112], 0, 3, 3, 0⟩)], [9, 8, 7]⟩], true,
      .reverse_mount_order, []⟩ [112] [9, 8, 7] rfl rfl (by decide)
    (by intro q bs hq; simp [mapLookup] at hq)
  exact ⟨h.1, h.2.1⟩

/-! ### Claim C10: enable_cache(false) is a pure flag flip -/

/-- C10: `enable_cache(false)` changes only the `cache_enabled` flag:
the cache map, the mounted archives, the search order and
`cache_size()` are unchanged, and after a subsequent
`enable_cache(true)` the previously cached entries are again served by
`open` and `contains`. -/
theorem C10_enable_cache_frame (bk : zlib_backend) (v : vfs) :
    (vfs.enable_cache v false).cache_ = v.cache_ ∧
    (vfs.enable_cache v false).archives_ = v.archives_ ∧
    (vfs.enable_cache v false).search_order_ = v.search_order_ ∧
    (vfs.enable_cache v false).cache_size = v.cache_size ∧
    (vfs.enable_cache v false).cache_enabled_ = false ∧
    (∀ p bs, mapLookup v.cache_ p = some bs →
      (vfs.open_file bk (vfs.enable_cache (vfs.enable_cache v false) true) p).1 =
        .ok bs ∧
      vfs.contains (vfs.enable_cache (vfs.enable_cache v false) true) p = true) := by
  refine ⟨rfl, rfl, rfl, rfl, rfl, ?_⟩
  intro p bs hp
  constructor
  · simp [vfs.open_file, vfs.enable_cache, hp]
  · simp [vfs.contains, vfs.enable_cache, hp]

/-- Witness for C10 at a concrete input: a VFS with one cached path. -/
theorem C10_enable_cache_frame_witness :
    (vfs.open_file idBackend
      (vfs.enable_cache
        (vfs.enable_cache
          { archives_ := [], cache_enabled_ := true,
            search_order_ := .reverse_mount_order, cache_ := [([112], [7])] }
          false) true) [112]).1 = .ok [7] :=
  ((C10_enable_cache_frame idBackend
    { archives_ := [], cache_enabled_ := true,
      search_order_ := .reverse_mount_order, cache_ := [([112], [7])] }).2.2.2.2.2
    [112] [7] rfl).1

/-! ### Claim C5: malformed directory entries are skipped -/

theorem serialize_entry_shape (e : directory_entry) (z : List Nat) :
    serialize_entry e ++ z =
      leN 4 e.filename.length ++ (e.filename ++ (leN 8 e.data_offset ++
        (leN 8 e.compressed_size ++ (leN 8 e.uncompressed_size ++
          (leN 1 e.compression ++ z))))) := by
  simp [serialize_entry, List.append_assoc]

theorem serialize_entry_length (e : directory_entry) :
    (serialize_entry e).length = 4 + e.filename.length + 25 := by
  simp [serialize_entry, List.length_append, leN_length]
  omega

theorem take_len_append (x y : List Nat) (k : Nat) (hk : x.length = k) :
    (x ++ y).take k = x := by
  subst hk
  rw [List.take_append_of_le_length le_rfl]
  exact List.take_length x

theorem drop_chunk (l x y : List Nat) (p k : Nat)
    (hl : l.drop p = x ++ y) (hk : x.length = k) :
    l.drop (p + k) = y := by
  rw [← List.drop_drop, hl, List.drop_left' hk]

theorem pow_32 : (2 : Nat) ^ 32 = 256 ^ 4 := by norm_num
theorem pow_64 : (2 : Nat) ^ 64 = 256 ^ 8 := by norm_num

theorem load_mem_loop_layout (tail : List Nat) :
    ∀ (entries : List directory_entry) (pre : List Nat)
      (acc : List (List Nat × directory_entry)),
      (∀ e ∈ entries, good_fields e) →
      archive.load_mem_loop
          (pre ++ ((entries.map serialize_entry).flatten ++ tail))
          entries.length pre.length acc =
        .ok (entries.foldl load_step acc) := by
  intro entries
  induction entries with
  | nil =>
    intro pre acc hgf
    simp [archive.load_mem_loop]
  | cons e es ih =>
    intro pre acc hgf
    obtain ⟨h32, hdo, hcs, hus, hcp⟩ := hgf e (List.mem_cons_self e es)
    have hflat : ((e :: es).map serialize_entry).flatten ++ tail =
        serialize_entry e ++ ((es.map serialize_entry).flatten ++ tail) := by
      simp [List.append_assoc]
    rw [hflat, serialize_entry_shape]
    set Dfull := pre ++ (leN 4 e.filename.length ++ (e.filename ++
      (leN 8 e.data_offset ++ (leN 8 e.compressed_size ++
        (leN 8 e.uncompressed_size ++ (leN 1 e.compression ++
          ((es.map serialize_entry).flatten ++ tail))))))) with hDdef
    simp only [List.length_cons, archive.load_mem_loop, rdLE_eq_valLE_take]
    have hd0 : Dfull.drop pre.length = leN 4 e.filename.length ++ (e.filename ++
        (leN 8 e.data_offset ++ (leN 8 e.compressed_size ++
          (leN 8 e.uncompressed_size ++ (leN 1 e.compression ++
            ((es.map serialize_entry).flatten ++ tail)))))) := by
      rw [hDdef]; exact List.drop_left _ _
    have hd1 := drop_chunk _ _ _ pre.length 4 hd0 (leN_length _ _)
    have hd2 := drop_chunk _ _ _ (pre.length + 4) e.filename.length hd1 rfl
    have hd3 := drop_chunk _ _ _ (pre.length + 4 + e.filename.length) 8 hd2
      (leN_length _ _)
    have hd4 : Dfull.drop (pre.length + 4 + e.filename.length + 16) =
        leN 8 e.uncompressed_size ++ (leN 1 e.compression ++
          ((es.map serialize_entry).flatten ++ tail)) := by
      rw [show pre.length + 4 + e.filename.length + 16 =
        pre.length + 4 + e.filename.length + 8 + 8 from by omega]
      exact drop_chunk _ _ _ _ 8 hd3 (leN_length _ _)
    have hd5 : Dfull.drop (pre.length + 4 + e.filename.length + 24) =
        leN 1 e.compression ++ ((es.map serialize_entry).flatten ++ tail) := by
      rw [show pre.length + 4 + e.filename.length + 24 =
        pre.length + 4 + e.filename.length + 16 + 8 from by omega]
      exact drop_chunk _ _ _ _ 8 hd4 (leN_length _ _)
    have hDlen : Dfull.length = pre.length + 4 + e.filename.length + 25 +
        ((es.map serialize_entry).flatten.length + tail.length) := by
      rw [hDdef]
      simp [List.length_append, leN_length]
      omega
    have hv1 : valLE ((Dfull.drop pre.length).take 4) = e.filename.length := by
      rw [hd0, take_len_append _ _ _ (leN_length 4 e.filename.length)]
      exact valLE_leN _ _ (by rw [← pow_32]; exact h32)
    have hname : (Dfull.drop (pre.length + 4)).take e.filename.length =
        e.filename := by
      rw [hd1]; exact take_len_append _ _ _ rfl
    have hv2 : valLE ((Dfull.drop (pre.length + 4 + e.filename.length)).take 8) =
        e.data_offset := by
      rw [hd2, take_len_append _ _ _ (leN_length 8 e.data_offset)]
      exact valLE_leN _ _ (by rw [← pow_64]; exact hdo)
    have hv3 : valLE ((Dfull.drop (pre.length + 4 + e.filename.length + 8)).take 8) =
        e.compressed_size := by
      rw [hd3, take_len_append _ _ _ (leN_length 8 e.compressed_size)]
      exact valLE_leN _ _ (by rw [← pow_64]; exact hcs)
    have hv4 : valLE ((Dfull.drop (pre.length + 4 + e.filename.length + 16)).take 8) =
        e.uncompressed_size := by
      rw [hd4, take_len_append _ _ _ (leN_length 8 e.uncompressed_size)]
      exact valLE_leN _ _ (by rw [← pow_64]; exact hus)
    have hv5 : valLE ((Dfull.drop (pre.length + 4 + e.filename.length + 24)).take 1) =
        e.compression := by
      rw [hd5, take_len_append _ _ _ (leN_length 1 e.compression)]
      exact valLE_leN _ _ (by simpa using hcp)
    rw [hv1, hname, hv2, hv3, hv4, hv5]
    have hc1 : ¬ (pre.length + 4 > Dfull.length) := by omega
    have hc2 : ¬ (pre.length + 4 + e.filename.length > Dfull.length) := by omega
    have hc3 : ¬ (pre.length + 4 + e.filename.length + 25 > Dfull.length) := by
      omega
    rw [if_neg hc1, if_neg hc2, if_neg hc3]
    have hD2 : Dfull = (pre ++ serialize_entry e) ++
        ((es.map serialize_entry).flatten ++ tail) := by
      rw [hDdef]
      simp [serialize_entry, List.append_assoc]
    have hp2 : pre.length + 4 + e.filename.length + 25 =
        (pre ++ serialize_entry e).length := by
      simp [List.length_append, serialize_entry_length]
      omega
    rw [hp2, hD2, ih _ _ (fun e' he' => hgf e' (List.mem_cons_of_mem _ he'))]
    rw [List.foldl_cons]
    by_cases hcond : 0 < e.filename.length ∧ e.filename.length < 4096
    · have hne : e.filename ≠ [] := by
        intro hnil
        rw [hnil] at hcond
        simp at hcond
      simp only [if_pos hcond, load_step, ne_eq, hne, not_false_iff, if_true]
    · simp only [if_neg hcond, load_step, ne_eq, not_true, if_false]



theorem seekg_unfailed (data : List Nat) (p0 p : Nat) :
    istream.seekg ⟨data, p0, false⟩ p = ⟨data, p, false⟩ := by
  simp [istream.seekg]

theorem read_ok (data : List Nat) (p n : Nat) (hb : p + n ≤ data.length) :
    istream.read ⟨data, p, false⟩ n =
      ((data.drop p).take n, ⟨data, p + n, false⟩) := by
  simp [istream.read, hb]

theorem load_disk_loop_layout (tail : List Nat) :
    ∀ (entries : List directory_entry) (pre : List Nat)
      (acc : List (List Nat × directory_entry)) (p0 : Nat),
      (∀ e ∈ entries, good_fields e) →
      archive.load_disk_loop
          ⟨pre ++ ((entries.map serialize_entry).flatten ++ tail), p0, false⟩
          entries.length pre.length acc =
        entries.foldl load_step acc := by
  intro entries
  induction entries with
  | nil =>
    intro pre acc p0 hgf
    simp [archive.load_disk_loop]
  | cons e es ih =>
    intro pre acc p0 hgf
    obtain ⟨h32, hdo, hcs, hus, hcp⟩ := hgf e (List.mem_cons_self e es)
    have hflat : ((e :: es).map serialize_entry).flatten ++ tail =
        serialize_entry e ++ ((es.map serialize_entry).flatten ++ tail) := by
      simp [List.append_assoc]
    rw [hflat, serialize_entry_shape]
    set Dfull := pre ++ (leN 4 e.filename.length ++ (e.filename ++
      (leN 8 e.data_offset ++ (leN 8 e.compressed_size ++
        (leN 8 e.uncompressed_size ++ (leN 1 e.compression ++
          ((es.map serialize_entry).flatten ++ tail))))))) with hDdef
    have hd0 : Dfull.drop pre.length = leN 4 e.filename.length ++ (e.filename ++
        (leN 8 e.data_offset ++ (leN 8 e.compressed_size ++
          (leN 8 e.uncompressed_size ++ (leN 1 e.compression ++
            ((es.map serialize_entry).flatten ++ tail)))))) := by
      rw [hDdef]; exact List.drop_left _ _
    have hd1 := drop_chunk _ _ _ pre.length 4 hd0 (leN_length _ _)
    have hDlen : Dfull.length = pre.length + 4 + e.filename.length + 25 +
        ((es.map serialize_entry).flatten.length + tail.length) := by
      rw [hDdef]
      simp [List.length_append, leN_length]
      omega
    have hv1 : valLE ((Dfull.drop pre.length).take 4) = e.filename.length := by
      rw [hd0, take_len_append _ _ _ (leN_length 4 e.filename.length)]
      exact valLE_leN _ _ (by rw [← pow_32]; exact h32)
    have hname : (Dfull.drop (pre.length + 4)).take e.filename.length =
        e.filename := by
      rw [hd1]; exact take_len_append _ _ _ rfl
    have hD2 : Dfull = (pre ++ serialize_entry e) ++
        ((es.map serialize_entry).flatten ++ tail) := by
      rw [hDdef]
      simp [serialize_entry, List.append_assoc]
    have hp2 : pre.length + (4 + e.filename.length + 25) =
        (pre ++ serialize_entry e).length := by
      simp [List.length_append, serialize_entry_length]
    simp only [List.length_cons, archive.load_disk_loop, seekg_unfailed]
    by_cases hcond : 0 < e.filename.length ∧ e.filename.length < 4096
    · have hne : e.filename ≠ [] := by
        intro hnil
        rw [hnil] at hcond
        simp at hcond
      have hr1 := read_ok Dfull pre.length 4 (by omega)
      have hrf := read_ok Dfull (pre.length + 4) e.filename.length (by omega)
      have hr3 := read_ok Dfull (pre.length + 4 + e.filename.length) 8 (by omega)
      have hr4 := read_ok Dfull (pre.length + 4 + e.filename.length + 8) 8
        (by omega)
      have hr5 := read_ok Dfull (pre.length + 4 + e.filename.length + 8 + 8) 8
        (by omega)
      have hr6 := read_ok Dfull (pre.length + 4 + e.filename.length + 8 + 8 + 8) 1
        (by omega)
      have hd2 := drop_chunk _ _ _ (pre.length + 4) e.filename.length hd1 rfl
      have hd3 := drop_chunk _ _ _ (pre.length + 4 + e.filename.length) 8 hd2
        (leN_length _ _)
      have hd4 := drop_chunk _ _ _ (pre.length + 4 + e.filename.length + 8) 8 hd3
        (leN_length _ _)
      have hd5 := drop_chunk _ _ _ (pre.length + 4 + e.filename.length + 8 + 8) 8
        hd4 (leN_length _ _)
      have hv2 : valLE ((Dfull.drop (pre.length + 4 + e.filename.length)).take 8) =
          e.data_offset := by
        rw [hd2, take_len_append _ _ _ (leN_length 8 e.data_offset)]
        exact valLE_leN _ _ (by rw [← pow_64]; exact hdo)
      have hv3 : valLE ((Dfull.drop (pre.length + 4 + e.filename.length + 8)).take 8) =
          e.compressed_size := by
        rw [hd3, take_len_append _ _ _ (leN_length 8 e.compressed_size)]
        exact valLE_leN _ _ (by rw [← pow_64]; exact hcs)
      have hv4 : valLE ((Dfull.drop (pre.length + 4 + e.filename.length + 8 + 8)).take 8) =
          e.uncompressed_size := by
        rw [hd4, take_len_append _ _ _ (leN_length 8 e.uncompressed_size)]
        exact valLE_leN _ _ (by rw [← pow_64]; exact hus)
      have hv5 : valLE ((Dfull.drop (pre.length + 4 + e.filename.length + 8 + 8 + 8)).take 1) =
          e.compression := by
        rw [hd5, take_len_append _ _ _ (leN_length 1 e.compression)]
        exact valLE_leN _ _ (by simpa using hcp)
      simp only [hr1, hv1, if_pos hcond, hrf, hname, hr3, hr4, hr5, hr6,
        Nat.sub_self, List.replicate, List.append_nil, ne_eq, hne,
        not_false_iff, if_true, hv2, hv3, hv4, hv5]
      rw [hp2, hD2, ih _ _ _ (fun e' he' => hgf e' (List.mem_cons_of_mem _ he'))]
      rw [List.foldl_cons]
      simp only [load_step, if_pos hcond]
    · have hr1 := read_ok Dfull pre.length 4 (by omega)
      have hr3 := read_ok Dfull (pre.length + 4) 8 (by omega)
      have hr4 := read_ok Dfull (pre.length + 4 + 8) 8 (by omega)
      have hr5 := read_ok Dfull (pre.length + 4 + 8 + 8) 8 (by omega)
      have hr6 := read_ok Dfull (pre.length + 4 + 8 + 8 + 8) 1 (by omega)
      simp only [hr1, hv1, if_neg hcond, hr3, hr4, hr5, hr6, ne_eq,
        not_true, if_false]
      rw [hp2, hD2, ih _ _ _ (fun e' he' => hgf e' (List.mem_cons_of_mem _ he'))]
      rw [List.foldl_cons]
      simp only [load_step, if_neg hcond]



theorem serialize_header_literal (dof cnt rv : Nat) (z : List Nat) :
    serialize_header ⟨MAGIC_NUMBER, FORMAT_VERSION, dof, cnt, rv⟩ ++ z =
      leN 4 MAGIC_NUMBER ++ (leN 4 FORMAT_VERSION ++ (leN 8 dof ++
        (leN 4 cnt ++ (leN 4 rv ++ z)))) := by
  simp [serialize_header, List.append_assoc]

theorem load_directory_mem_layout (entries : List directory_entry)
    (middle tail : List Nat) (rv : Nat)
    (hcount : entries.length < 2 ^ 32)
    (hoff : 24 + middle.length < 2 ^ 64)
    (hfields : ∀ e ∈ entries, good_fields e) :
    archive.load_directory_mem
        (serialize_header
            ⟨MAGIC_NUMBER, FORMAT_VERSION, 24 + middle.length, entries.length, rv⟩ ++
          (middle ++ ((entries.map serialize_entry).flatten ++ tail))) =
      .ok (expected_directory entries) := by
  rw [serialize_header_literal]
  set Dfull := leN 4 MAGIC_NUMBER ++ (leN 4 FORMAT_VERSION ++
    (leN 8 (24 + middle.length) ++ (leN 4 entries.length ++ (leN 4 rv ++
      (middle ++ ((entries.map serialize_entry).flatten ++ tail)))))) with hDdef
  have hh0 : Dfull.drop 0 = Dfull := List.drop_zero Dfull
  have hh1 : Dfull.drop 4 = leN 4 FORMAT_VERSION ++ (leN 8 (24 + middle.length) ++
      (leN 4 entries.length ++ (leN 4 rv ++
        (middle ++ ((entries.map serialize_entry).flatten ++ tail))))) := by
    have := drop_chunk Dfull _ _ 0 4 hh0 (leN_length _ _)
    simpa using this
  have hh2 : Dfull.drop 8 = leN 8 (24 + middle.length) ++
      (leN 4 entries.length ++ (leN 4 rv ++
        (middle ++ ((entries.map serialize_entry).flatten ++ tail)))) := by
    have := drop_chunk Dfull _ _ 4 4 hh1 (leN_length _ _)
    simpa using this
  have hh3 : Dfull.drop 16 = leN 4 entries.length ++ (leN 4 rv ++
      (middle ++ ((entries.map serialize_entry).flatten ++ tail))) := by
    have := drop_chunk Dfull _ _ 8 8 hh2 (leN_length _ _)
    simpa using this
  have hDlen : 24 ≤ Dfull.length := by
    rw [hDdef]
    simp [List.length_append, leN_length]
    omega
  have hm : valLE ((Dfull.drop 0).take 4) = MAGIC_NUMBER := by
    rw [hh0, hDdef, take_len_append _ _ _ (leN_length 4 MAGIC_NUMBER)]
    exact valLE_leN _ _ (by norm_num [MAGIC_NUMBER])
  have hv : valLE ((Dfull.drop 4).take 4) = FORMAT_VERSION := by
    rw [hh1, take_len_append _ _ _ (leN_length 4 FORMAT_VERSION)]
    exact valLE_leN _ _ (by norm_num [FORMAT_VERSION])
  have hdof : valLE ((Dfull.drop 8).take 8) = 24 + middle.length := by
    rw [hh2, take_len_append _ _ _ (leN_length 8 (24 + middle.length))]
    exact valLE_leN _ _ (by rw [← pow_64]; exact hoff)
  have hcnt : valLE ((Dfull.drop 16).take 4) = entries.length := by
    rw [hh3, take_len_append _ _ _ (leN_length 4 entries.length)]
    exact valLE_leN _ _ (by rw [← pow_32]; exact hcount)
  simp only [archive.load_directory_mem, rdLE_eq_valLE_take, hm, hv, hdof, hcnt]
  rw [if_neg (by omega), if_neg (by simp), if_neg (by simp)]
  have hp : 24 + middle.length = (leN 4 MAGIC_NUMBER ++ (leN 4 FORMAT_VERSION ++
      (leN 8 (24 + middle.length) ++ (leN 4 entries.length ++
        (leN 4 rv ++ middle))))).length := by
    simp [List.length_append, leN_length]
    omega
  have hD2 : Dfull = (leN 4 MAGIC_NUMBER ++ (leN 4 FORMAT_VERSION ++
      (leN 8 (24 + middle.length) ++ (leN 4 entries.length ++
        (leN 4 rv ++ middle))))) ++
      ((entries.map serialize_entry).flatten ++ tail) := by
    rw [hDdef]
    simp [List.append_assoc]
  rw [hp, hD2, load_mem_loop_layout tail entries _ [] hfields]
  rfl



theorem load_directory_disk_layout (entries : List directory_entry)
    (middle tail : List Nat) (rv : Nat)
    (hcount : entries.length < 2 ^ 32)
    (hoff : 24 + middle.length < 2 ^ 64)
    (hfields : ∀ e ∈ entries, good_fields e) :
    archive.load_directory_disk
        (some (serialize_header
            ⟨MAGIC_NUMBER, FORMAT_VERSION, 24 + middle.length, entries.length, rv⟩ ++
          (middle ++ ((entries.map serialize_entry).flatten ++ tail)))) =
      .ok (expected_directory entries) := by
  rw [serialize_header_literal]
  set Dfull := leN 4 MAGIC_NUMBER ++ (leN 4 FORMAT_VERSION ++
    (leN 8 (24 + middle.length) ++ (leN 4 entries.length ++ (leN 4 rv ++
      (middle ++ ((entries.map serialize_entry).flatten ++ tail)))))) with hDdef
  set H24 := leN 4 MAGIC_NUMBER ++ (leN 4 FORMAT_VERSION ++
    (leN 8 (24 + middle.length) ++ (leN 4 entries.length ++ leN 4 rv))) with hHdef
  have hH24len : H24.length = 24 := by
    rw [hHdef]
    simp [List.length_append, leN_length]
  have hDH : Dfull = H24 ++ (middle ++ ((entries.map serialize_entry).flatten ++ tail)) := by
    rw [hDdef, hHdef]
    simp [List.append_assoc]
  have hDlen : 24 ≤ Dfull.length := by
    rw [hDH]
    simp [List.length_append, hH24len]
  have htake : (Dfull.drop 0).take 24 = H24 := by
    rw [List.drop_zero, hDH]
    exact take_len_append _ _ _ hH24len
  have hk0 : H24.drop 0 = H24 := List.drop_zero H24
  have hk1 : H24.drop 4 = leN 4 FORMAT_VERSION ++
      (leN 8 (24 + middle.length) ++ (leN 4 entries.length ++ leN 4 rv)) := by
    have := drop_chunk H24 _ _ 0 4 (by rw [hk0, hHdef]) (leN_length _ _)
    simpa using this
  have hk2 : H24.drop 8 = leN 8 (24 + middle.length) ++
      (leN 4 entries.length ++ leN 4 rv) := by
    have := drop_chunk H24 _ _ 4 4 hk1 (leN_length _ _)
    simpa using this
  have hk3 : H24.drop 16 = leN 4 entries.length ++ leN 4 rv := by
    have := drop_chunk H24 _ _ 8 8 hk2 (leN_length _ _)
    simpa using this
  have hm : valLE (H24.take 4) = MAGIC_NUMBER := by
    rw [hHdef, take_len_append _ _ _ (leN_length 4 MAGIC_NUMBER)]
    exact valLE_leN _ _ (by norm_num [MAGIC_NUMBER])
  have hv : valLE ((H24.drop 4).take 4) = FORMAT_VERSION := by
    rw [hk1, take_len_append _ _ _ (leN_length 4 FORMAT_VERSION)]
    exact valLE_leN _ _ (by norm_num [FORMAT_VERSION])
  have hdof : valLE ((H24.drop 8).take 8) = 24 + middle.length := by
    rw [hk2, take_len_append _ _ _ (leN_length 8 (24 + middle.length))]
    exact valLE_leN _ _ (by rw [← pow_64]; exact hoff)
  have hcnt : valLE ((H24.drop 16).take 4) = entries.length := by
    rw [hk3, take_len_append _ _ _ (leN_length 4 entries.length)]
    exact valLE_leN _ _ (by rw [← pow_32]; exact hcount)
  have hread := read_ok Dfull 0 24 (by omega)
  simp only [archive.load_directory_disk, seekg_unfailed, hread, htake, hm, hv,
    hdof, hcnt]
  rw [if_neg (by simp [hH24len]), if_neg (by simp), if_neg (by simp)]
  have hp : 24 + middle.length = (leN 4 MAGIC_NUMBER ++ (leN 4 FORMAT_VERSION ++
      (leN 8 (24 + middle.length) ++ (leN 4 entries.length ++
        (leN 4 rv ++ middle))))).length := by
    simp [List.length_append, leN_length]
    omega
  have hD2 : Dfull = (leN 4 MAGIC_NUMBER ++ (leN 4 FORMAT_VERSION ++
      (leN 8 (24 + middle.length) ++ (leN 4 entries.length ++
        (leN 4 rv ++ middle))))) ++
      ((entries.map serialize_entry).flatten ++ tail) := by
    rw [hDdef]
    simp [List.append_assoc]
  rw [hp, hD2, load_disk_loop_layout tail entries _ [] _ hfields]
  rfl



/-- C5: during directory load (both Disk and Memory backing) of a
well-framed container, every directory entry whose declared
`filename_length` is 0 or at least 4096 is skipped (not inserted into
the directory map), the stream position still advances over the
declared length so subsequent entries are parsed at the correct
offsets, and directory loading succeeds with exactly the remaining
(well-named) entries inserted in order. -/
theorem C5_malformed_entries_skipped (entries : List directory_entry)
    (middle tail : List Nat) (rv : Nat)
    (hcount : entries.length < 2 ^ 32)
    (hoff : 24 + middle.length < 2 ^ 64)
    (hfields : ∀ e ∈ entries, good_fields e) :
    archive.load_directory_mem
        (serialize_header
            ⟨MAGIC_NUMBER, FORMAT_VERSION, 24 + middle.length, entries.length, rv⟩ ++
          (middle ++ ((entries.map serialize_entry).flatten ++ tail))) =
      .ok (expected_directory entries) ∧
    archive.load_directory_disk
        (some (serialize_header
            ⟨MAGIC_NUMBER, FORMAT_VERSION, 24 + middle.length, entries.length, rv⟩ ++
          (middle ++ ((entries.map serialize_entry).flatten ++ tail)))) =
      .ok (expected_directory entries) :=
  ⟨load_directory_mem_layout entries middle tail rv hcount hoff hfields,
   load_directory_disk_layout entries middle tail rv hcount hoff hfields⟩

/-- Witness for C5 at a concrete container: three entries, the middle
one malformed with `filename_length = 0`; the load succeeds and the
resulting map holds exactly the first and third entries. -/
theorem C5_malformed_entries_skipped_witness :
    archive.load_directory_mem
        (serialize_header
            ⟨MAGIC_NUMBER, FORMAT_VERSION, 24 + [1, 2, 3].length,
              [⟨[97], 24, 1, 1, 0⟩, ⟨[], 30, 2, 2, 0⟩,
                (⟨[98], 40, 1, 1, 1⟩ : directory_entry)].length, 0⟩ ++
          ([1, 2, 3] ++
            (([⟨[97], 24, 1, 1, 0⟩, ⟨[], 30, 2, 2, 0⟩,
                (⟨[98], 40, 1, 1, 1⟩ : directory_entry)].map serialize_entry).flatten ++
              []))) =
      .ok [([97], ⟨[97], 24, 1, 1, 0⟩), ([98], ⟨[98], 40, 1, 1, 1⟩)] := by
  have h := C5_malformed_entries_skipped
    [⟨[97], 24, 1, 1, 0⟩, ⟨[], 30, 2, 2, 0⟩, ⟨[98], 40, 1, 1, 1⟩]
    [1, 2, 3] [] 0 (by decide) (by decide) (by decide)
  exact h.1.trans (by decide)


end dp
